import Mathlib

/-!
# Hang Hive — verification of the group/hangout/message data model

Shallow embedding of the Hang Hive backend (`src/server.js`) and of the
client-side helpers the specification talks about (`src/js/main.js`,
`src/js/firebase.js`, `src/js/chat.js`, `src/unnamed/part_003`).

JavaScript objects used as dictionaries (`hangout.responses`,
`message.reactions`) preserve insertion order and have unique keys; they are
embedded as association lists together with the order-preserving update
`objSet` (assignment `obj[k] = v`) and lookup `objGet` (`obj[k]`).
Arrays become lists.  Each HTTP handler loads the persisted document,
possibly mutates it and saves it back; it is embedded as a pure function
`DB → Except (Nat × String) α × DB` returning the handler's JSON payload
(or its HTTP status code and error message) together with the document that
is persisted afterwards (unchanged on every error path).  Randomly generated
ids/codes and `new Date()` timestamps are passed in as explicit arguments.
-/

set_option maxHeartbeats 1000000

namespace HangHive

/-- A user record, as created by `POST /api/users/login` (server.js 129-133). -/
structure User where
  id : String
  username : String
  createdAt : String
deriving Repr, DecidableEq

/-- A hangout record (server.js 299-309).  `responses` is the JS object
mapping username to the response string, kept in insertion order. -/
structure Hangout where
  id : String
  title : String
  date : String
  time : String
  location : String
  description : String
  proposedBy : String
  createdAt : String
  responses : List (String × String)
deriving Repr, DecidableEq

/-- A chat message (server.js 417-423).  `reactions` is the JS object
mapping an emoji to the array of usernames who reacted with it. -/
structure Message where
  id : String
  text : String
  sender : String
  timestamp : String
  reactions : List (String × List String)
deriving Repr, DecidableEq

/-- A group record (server.js 198-207). -/
structure Group where
  id : String
  name : String
  code : String
  members : List String
  createdBy : String
  createdAt : String
  hangouts : List Hangout
  messages : List Message
deriving Repr, DecidableEq

/-- The persisted document `{users, groups}` (server.js 53). -/
structure DB where
  users : List User
  groups : List Group
deriving Repr, DecidableEq

/-- The empty document created on first run. -/
def DB.empty : DB := ⟨[], []⟩

/-! ## String primitives

JS `trim` / `toLowerCase` / `toUpperCase`, modelled directly on the
character list so that they compute by kernel reduction (the built-in
`String.trim` and friends use well-founded recursion and do not). -/

/-- JS `s.trim()`: strip leading and trailing whitespace. -/
def jsTrim (s : String) : String :=
  ⟨((s.data.dropWhile Char.isWhitespace).reverse.dropWhile Char.isWhitespace).reverse⟩

/-- JS `s.toLowerCase()`. -/
def jsToLower (s : String) : String := ⟨s.data.map Char.toLower⟩

/-- JS `s.toUpperCase()`. -/
def jsToUpper (s : String) : String := ⟨s.data.map Char.toUpper⟩

/-! ## Generic list helpers

`Array.prototype.find` / `findIndex`-followed-by-mutation /
`splice(index, 1)` on the first element whose key matches. -/

/-- JS `list.find(x => key(x) === k)`. -/
def findByKey (key : α → String) (k : String) : List α → Option α
  | [] => none
  | x :: xs => if key x = k then some x else findByKey key k xs

/-- Mutating (in place) the first element whose key matches, as JS does after
`find`/`findIndex`; elements after the first match are untouched. -/
def updateByKey (key : α → String) (k : String) (f : α → α) : List α → List α
  | [] => []
  | x :: xs => if key x = k then f x :: xs else x :: updateByKey key k f xs

/-- JS `splice(findIndex(x => key(x) === k), 1)`: remove the first match. -/
def removeByKey (key : α → String) (k : String) : List α → List α
  | [] => []
  | x :: xs => if key x = k then xs else x :: removeByKey key k xs

/-- JS object lookup `obj[k]` (`undefined` ↦ `none`). -/
def objGet (k : String) : List (String × α) → Option α
  | [] => none
  | (k', v) :: rest => if k' = k then some v else objGet k rest

/-- JS object assignment `obj[k] = v`: overwrite in place when the key is
present, append a fresh key otherwise. -/
def objSet (k : String) (v : α) : List (String × α) → List (String × α)
  | [] => [(k, v)]
  | (k', v') :: rest => if k' = k then (k, v) :: rest else (k', v') :: objSet k v rest

/-- JS `delete obj[k]` (JS objects hold each key once). -/
def objDelete (k : String) : List (String × α) → List (String × α)
  | [] => []
  | (k', v') :: rest => if k' = k then rest else (k', v') :: objDelete k rest

/-- JS `arr.splice(arr.indexOf(u), 1)`: remove the first occurrence of `u`
(server.js 460-467). -/
def removeFirstUser (u : String) : List String → List String
  | [] => []
  | x :: xs => if x = u then xs else x :: removeFirstUser u xs

/-! ## Server operations (src/server.js) -/

/-- Handler `POST /api/users/login` (server.js 115-142).  `freshId` stands for
`generateId()` and `now` for `new Date().toISOString()`.  Note that the
case-insensitive lookup on line 125 compares against the *untrimmed*
request username, while the stored username on line 131 is trimmed. -/
def loginUser (username freshId now : String) (db : DB) :
    Except (Nat × String) User × DB :=
  if jsTrim username = "" then (.error (400, "Username is required"), db)
  else
    match findByKey (fun u => jsToLower u.username) (jsToLower username) db.users with
    | some u => (.ok u, db)
    | none =>
        let u : User := ⟨freshId, jsTrim username, now⟩
        (.ok u, { db with users := db.users ++ [u] })

/-- Handler `GET /api/groups` (server.js 152-164): list all groups, filtered to the
membership of `username` when that query parameter is a non-empty string. -/
def listGroups (username : String) (db : DB) : List Group :=
  if username = "" then db.groups
  else db.groups.filter (fun g => g.members.contains username)

/-- Handler `GET /api/groups/:id` (server.js 170-179). -/
def getGroup (gid : String) (db : DB) : Except (Nat × String) Group × DB :=
  match findByKey Group.id gid db.groups with
  | none => (.error (404, "Group not found"), db)
  | some g => (.ok g, db)

/-- Handler `POST /api/groups` (server.js 185-214).  `freshId` is `generateId()`
and `freshCode` is `generateGroupCode()`. -/
def createGroup (name createdBy freshId freshCode now : String) (db : DB) :
    Except (Nat × String) Group × DB :=
  if jsTrim name = "" then (.error (400, "Group name is required"), db)
  else if createdBy = "" then (.error (400, "Creator username is required"), db)
  else
    let g : Group := ⟨freshId, jsTrim name, freshCode, [createdBy], createdBy, now, [], []⟩
    (.ok g, { db with groups := db.groups ++ [g] })

/-- Handler `POST /api/groups/join` (server.js 220-247): case-insensitive code
match, reject duplicate membership, otherwise push the username. -/
def joinGroup (code username : String) (db : DB) :
    Except (Nat × String) Group × DB :=
  if code = "" then (.error (400, "Group code is required"), db)
  else if username = "" then (.error (400, "Username is required"), db)
  else
    match findByKey (fun g => jsToUpper g.code) (jsToUpper code) db.groups with
    | none => (.error (404, "No group found with that code"), db)
    | some g =>
        if username ∈ g.members then
          (.error (400, "You are already in this group"), db)
        else
          let g' := { g with members := g.members ++ [username] }
          let gs := updateByKey (fun h => jsToUpper h.code) (jsToUpper code)
            (fun h => { h with members := h.members ++ [username] }) db.groups
          (.ok g', { db with groups := gs })

/-- Handler `POST /api/groups/:id/leave` (server.js 253-275): drop the username from
the member list; delete the whole group when no member is left; the JSON
answer reports `deleted = (members.length === 0)` after the mutation. -/
def leaveGroup (gid username : String) (db : DB) :
    Except (Nat × String) Bool × DB :=
  match findByKey Group.id gid db.groups with
  | none => (.error (404, "Group not found"), db)
  | some g =>
      let ms := g.members.filter (fun m => m ≠ username)
      if ms.length = 0 then
        (.ok true, { db with groups := removeByKey Group.id gid db.groups })
      else
        let gs := updateByKey Group.id gid
          (fun h => { h with members := h.members.filter (fun m => m ≠ username) })
          db.groups
        (.ok false, { db with groups := gs })

/-- Handler `POST /api/groups/:id/hangouts` (server.js 285-316).  A missing or empty
`title`/`date`/`time`/`location` is falsy and rejected; `description` is an
optional field defaulted to `''`; the responses object starts as
`{ [proposedBy]: 'going' }`. -/
def proposeHangout (gid title date time location : String)
    (description : Option String) (proposedBy freshId now : String) (db : DB) :
    Except (Nat × String) Hangout × DB :=
  if title = "" ∨ date = "" ∨ time = "" ∨ location = "" then
    (.error (400, "Title, date, time, and location are required"), db)
  else
    match findByKey Group.id gid db.groups with
    | none => (.error (404, "Group not found"), db)
    | some _ =>
        let h : Hangout := ⟨freshId, jsTrim title, date, time, jsTrim location,
          (match description with
           | none => ""
           | some d => if d = "" then "" else jsTrim d),
          proposedBy, now, [(proposedBy, "going")]⟩
        let gs := updateByKey Group.id gid
          (fun g => { g with hangouts := g.hangouts ++ [h] }) db.groups
        (.ok h, { db with groups := gs })

/-- Handler `POST /api/groups/:groupId/hangouts/:hangoutId/respond`
(server.js 322-347): the response must be one of the three enum strings,
then `hangout.responses[username] = response`. -/
def respondToHangout (gid hid username response : String) (db : DB) :
    Except (Nat × String) Hangout × DB :=
  if ¬ (response = "going" ∨ response = "maybe" ∨ response = "notGoing") then
    (.error (400, "Invalid response. Must be: going, maybe, or notGoing"), db)
  else
    match findByKey Group.id gid db.groups with
    | none => (.error (404, "Group not found"), db)
    | some g =>
        match findByKey Hangout.id hid g.hangouts with
        | none => (.error (404, "Hangout not found"), db)
        | some h =>
            let h' := { h with responses := objSet username response h.responses }
            let gs := updateByKey Group.id gid
              (fun g' => { g' with hangouts := updateByKey Hangout.id hid (fun _ => h') g'.hangouts })
              db.groups
            (.ok h', { db with groups := gs })

/-- Handler `DELETE /api/groups/:groupId/hangouts/:hangoutId` (server.js 353-374).
The route body (`{username}` is not even sent by `api.js`'s
`deleteHangout`) is never read: the handler checks only that the group and
the hangout exist, then splices the hangout out — `requester` is an
explicit argument here to record that the result does not depend on it. -/
def deleteHangoutApi (gid hid requester : String) (db : DB) :
    Except (Nat × String) Unit × DB :=
  match findByKey Group.id gid db.groups with
  | none => (.error (404, "Group not found"), db)
  | some g =>
      match findByKey Hangout.id hid g.hangouts with
      | none => (.error (404, "Hangout not found"), db)
      | some _ =>
          let gs := updateByKey Group.id gid
            (fun g' => { g' with hangouts := removeByKey Hangout.id hid g'.hangouts })
            db.groups
          (.ok (), { db with groups := gs })

/-- Handler `GET /api/groups/:id/messages` (server.js 384-393). -/
def getMessages (gid : String) (db : DB) :
    Except (Nat × String) (List Message) × DB :=
  match findByKey Group.id gid db.groups with
  | none => (.error (404, "Group not found"), db)
  | some g => (.ok g.messages, db)

/-- Handler `POST /api/groups/:id/messages` (server.js 399-430). -/
def sendMessage (gid text sender freshId now : String) (db : DB) :
    Except (Nat × String) Message × DB :=
  if jsTrim text = "" then (.error (400, "Message text is required"), db)
  else
    match findByKey Group.id gid db.groups with
    | none => (.error (404, "Group not found"), db)
    | some _ =>
        let m : Message := ⟨freshId, jsTrim text, sender, now, []⟩
        let gs := updateByKey Group.id gid
          (fun g => { g with messages := g.messages ++ [m] }) db.groups
        (.ok m, { db with groups := gs })

/-- The toggle body of the react handler (server.js 452-471): ensure
`reactions[emoji]` exists, then add the username when absent, else remove
its first occurrence and delete the emoji key once the array is empty. -/
def reactToggle (emoji username : String)
    (reactions : List (String × List String)) : List (String × List String) :=
  let rs := if (objGet emoji reactions).isNone
            then reactions ++ [(emoji, [])] else reactions
  let users := (objGet emoji rs).getD []
  if username ∈ users then
    let users' := removeFirstUser username users
    if users'.length = 0 then objDelete emoji rs
    else objSet emoji users' rs
  else
    objSet emoji (users ++ [username]) rs

/-- Handler `POST /api/groups/:groupId/messages/:messageId/react`
(server.js 436-475). -/
def reactToMessage (gid mid username emoji : String) (db : DB) :
    Except (Nat × String) Message × DB :=
  match findByKey Group.id gid db.groups with
  | none => (.error (404, "Group not found"), db)
  | some g =>
      match findByKey Message.id mid g.messages with
      | none => (.error (404, "Message not found"), db)
      | some m =>
          let m' := { m with reactions := reactToggle emoji username m.reactions }
          let gs := updateByKey Group.id gid
            (fun g' => { g' with messages := updateByKey Message.id mid (fun _ => m') g'.messages })
            db.groups
          (.ok m', { db with groups := gs })

/-! ## Client-side helpers the spec talks about -/

/-- The derived hangout status. -/
inductive HangoutStatus
  | confirmed
  | cancelled
  | pending
deriving Repr, DecidableEq

/-- Function `getHangoutStatus` from `src/js/main.js` lines 87-95:
`Object.values(hangout.responses)` is the value list of the responses
object, and for a natural `memberCount` the JS threshold
`Math.ceil(memberCount / 2)` is `(memberCount + 1) / 2` in `Nat`. -/
def getHangoutStatusMain (responses : List (String × String))
    (memberCount : Nat) : HangoutStatus :=
  let vs := responses.map Prod.snd
  let goingCount := (vs.filter (fun r => r = "going")).length
  let notGoingCount := (vs.filter (fun r => r = "notGoing")).length
  if goingCount ≥ (memberCount + 1) / 2 then .confirmed
  else if notGoingCount ≥ (memberCount + 1) / 2 then .cancelled
  else .pending

/-- Function `getHangoutStatus` from `src/js/firebase.js` lines 126-134 and
`src/unnamed/part_003` lines 98-115: over the rationals
`goingCount > memberCount / 2` is `2 * goingCount > memberCount`. -/
def getHangoutStatusFb (responses : List (String × String))
    (memberCount : Nat) : HangoutStatus :=
  let vs := responses.map Prod.snd
  let goingCount := (vs.filter (fun r => r = "going")).length
  let notGoingCount := (vs.filter (fun r => r = "notGoing")).length
  if 2 * goingCount > memberCount then .confirmed
  else if 2 * notGoingCount > memberCount then .cancelled
  else .pending

/-- Client-side `deleteHangout` from `src/js/main.js` lines 580-598,
acting on the currently open group (the `confirm` dialog is taken as
accepted).  Returns the error toast, if any, and the group afterwards:
a missing hangout is a silent no-op, a non-proposer gets the
creator-only toast and no mutation, the proposer gets the hangout
filtered out. -/
def clientDeleteHangout (grp : Group) (hangoutId currentUsername : String) :
    Option String × Group :=
  match findByKey Hangout.id hangoutId grp.hangouts with
  | none => (none, grp)
  | some h =>
      if h.proposedBy ≠ currentUsername then
        (some "Only the creator can delete this hangout", grp)
      else
        (none, { grp with hangouts :=
          grp.hangouts.filter (fun h' => h'.id ≠ hangoutId) })

/-! ## Reachable documents

One constructor per HTTP handler that can write the document; the new
document is whatever the handler persists (the old one on error paths).
Fresh ids, codes and timestamps are arbitrary strings, exactly as the
server's random generators are unconstrained. -/

/-- A single request processed by the server, relating the persisted
document before and after. -/
inductive Step : DB → DB → Prop
  | login (username freshId now : String) (db : DB) :
      Step db (loginUser username freshId now db).2
  | create (name createdBy freshId freshCode now : String) (db : DB) :
      Step db (createGroup name createdBy freshId freshCode now db).2
  | join (code username : String) (db : DB) :
      Step db (joinGroup code username db).2
  | leave (gid username : String) (db : DB) :
      Step db (leaveGroup gid username db).2
  | propose (gid title date time location : String) (description : Option String)
      (proposedBy freshId now : String) (db : DB) :
      Step db (proposeHangout gid title date time location description
        proposedBy freshId now db).2
  | respond (gid hid username response : String) (db : DB) :
      Step db (respondToHangout gid hid username response db).2
  | deleteHangout (gid hid requester : String) (db : DB) :
      Step db (deleteHangoutApi gid hid requester db).2
  | send (gid text sender freshId now : String) (db : DB) :
      Step db (sendMessage gid text sender freshId now db).2
  | react (gid mid username emoji : String) (db : DB) :
      Step db (reactToMessage gid mid username emoji db).2

/-- Documents reachable from the empty document created on first run. -/
inductive Reachable : DB → Prop
  | init : Reachable DB.empty
  | step {db db' : DB} : Reachable db → Step db db' → Reachable db'

/-! ## Lemmas about the list helpers -/

theorem findByKey_mem {key : α → String} {k : String} {l : List α} {x : α}
    (h : findByKey key k l = some x) : x ∈ l ∧ key x = k := by
  induction l with
  | nil => simp [findByKey] at h
  | cons a as ih =>
      by_cases ha : key a = k
      · simp [findByKey, ha] at h
        subst h
        exact ⟨List.mem_cons_self a as, ha⟩
      · simp [findByKey, ha] at h
        rcases ih h with ⟨h1, h2⟩
        exact ⟨List.mem_cons_of_mem a h1, h2⟩

theorem findByKey_eq_none {key : α → String} {k : String} {l : List α} :
    findByKey key k l = none ↔ ∀ x ∈ l, key x ≠ k := by
  induction l with
  | nil => simp [findByKey]
  | cons a as ih =>
      by_cases ha : key a = k
      · simp [findByKey, ha]
      · simp [findByKey, ha, ih]

theorem findByKey_append {key : α → String} {k : String} {l₁ l₂ : List α} :
    findByKey key k (l₁ ++ l₂)
      = match findByKey key k l₁ with
        | some x => some x
        | none => findByKey key k l₂ := by
  induction l₁ with
  | nil => simp [findByKey]
  | cons a as ih =>
      by_cases ha : key a = k
      · simp [findByKey, ha]
      · simp [findByKey, ha, ih]

theorem mem_removeByKey {key : α → String} {k : String} {l : List α} {y : α}
    (h : y ∈ removeByKey key k l) : y ∈ l := by
  induction l with
  | nil => simp [removeByKey] at h
  | cons a as ih =>
      by_cases ha : key a = k
      · simp [removeByKey, ha] at h
        exact List.mem_cons_of_mem a h
      · simp [removeByKey, ha] at h
        rcases h with h | h
        · exact h ▸ List.mem_cons_self a as
        · exact List.mem_cons_of_mem a (ih h)

theorem findByKey_removeByKey_self {key : α → String} {k : String} {l : List α}
    (h : (l.map key).Nodup) :
    findByKey key k (removeByKey key k l) = none := by
  induction l with
  | nil => simp [removeByKey, findByKey]
  | cons a as ih =>
      simp only [List.map_cons, List.nodup_cons] at h
      by_cases ha : key a = k
      · rw [removeByKey, if_pos ha]
        rw [findByKey_eq_none]
        intro x hx hk
        exact h.1 (ha ▸ hk ▸ List.mem_map_of_mem key hx)
      · rw [removeByKey, if_neg ha, findByKey, if_neg ha]
        exact ih h.2

theorem mem_updateByKey {key : α → String} {k : String} {f : α → α}
    {l : List α} {y : α} (h : y ∈ updateByKey key k f l) :
    y ∈ l ∨ ∃ x, findByKey key k l = some x ∧ y = f x := by
  induction l with
  | nil => simp [updateByKey] at h
  | cons a as ih =>
      by_cases ha : key a = k
      · simp [updateByKey, ha] at h
        rcases h with h | h
        · exact Or.inr ⟨a, by simp [findByKey, ha], h⟩
        · exact Or.inl (List.mem_cons_of_mem a h)
      · simp [updateByKey, ha] at h
        rcases h with h | h
        · exact Or.inl (h ▸ List.mem_cons_self a as)
        · rcases ih h with h' | ⟨x, hx, hy⟩
          · exact Or.inl (List.mem_cons_of_mem a h')
          · exact Or.inr ⟨x, by simp [findByKey, ha, hx], hy⟩

theorem updateByKey_eq_self {key : α → String} {k : String} {f : α → α}
    {l : List α} {x : α} (hfind : findByKey key k l = some x) (hfx : f x = x) :
    updateByKey key k f l = l := by
  induction l with
  | nil => simp [findByKey] at hfind
  | cons a as ih =>
      by_cases ha : key a = k
      · simp [findByKey, ha] at hfind
        subst hfind
        simp [updateByKey, ha, hfx]
      · simp [findByKey, ha] at hfind
        simp [updateByKey, ha, ih hfind]

theorem updateByKey_mem_of_findByKey {key : α → String} {k : String}
    {f : α → α} {l : List α} {x : α} (hfind : findByKey key k l = some x) :
    f x ∈ updateByKey key k f l := by
  induction l with
  | nil => simp [findByKey] at hfind
  | cons a as ih =>
      by_cases ha : key a = k
      · simp [findByKey, ha] at hfind
        subst hfind
        simp [updateByKey, ha]
      · simp [findByKey, ha] at hfind
        simp only [updateByKey, if_neg ha]
        exact List.mem_cons_of_mem a (ih hfind)

/-! ## Lemmas about the JS-object helpers -/

theorem objGet_mem {k : String} {l : List (String × α)} {v : α}
    (h : objGet k l = some v) : (k, v) ∈ l := by
  induction l with
  | nil => simp [objGet] at h
  | cons p rest ih =>
      obtain ⟨k', v'⟩ := p
      by_cases hk : k' = k
      · simp [objGet, hk] at h
        subst hk; subst h
        exact List.mem_cons_self _ _
      · simp [objGet, hk] at h
        exact List.mem_cons_of_mem _ (ih h)

theorem objGet_isSome_iff {k : String} {l : List (String × α)} :
    (objGet k l).isSome = true ↔ k ∈ l.map Prod.fst := by
  induction l with
  | nil => simp [objGet]
  | cons p rest ih =>
      obtain ⟨k', v'⟩ := p
      by_cases hk : k' = k
      · simp [objGet, hk]
      · simp [objGet, hk, ih, Ne.symm hk]

theorem objGet_objSet_self {k : String} {v : α} {l : List (String × α)} :
    objGet k (objSet k v l) = some v := by
  induction l with
  | nil => simp [objSet, objGet]
  | cons p rest ih =>
      obtain ⟨k', v'⟩ := p
      by_cases hk : k' = k
      · simp [objSet, hk, objGet]
      · simp [objSet, hk, objGet, ih]

theorem objGet_objSet_ne {k k' : String} {v : α} {l : List (String × α)}
    (hne : k' ≠ k) : objGet k' (objSet k v l) = objGet k' l := by
  induction l with
  | nil => simp [objSet, objGet, Ne.symm hne]
  | cons p rest ih =>
      obtain ⟨k₀, v₀⟩ := p
      by_cases hk : k₀ = k
      · subst hk
        simp [objSet, objGet, Ne.symm hne]
      · simp [objSet, hk, objGet, ih]

theorem objSet_objSet {k : String} {v w : α} {l : List (String × α)} :
    objSet k v (objSet k w l) = objSet k v l := by
  induction l with
  | nil => simp [objSet]
  | cons p rest ih =>
      obtain ⟨k₀, v₀⟩ := p
      by_cases hk : k₀ = k
      · simp [objSet, hk]
      · simp [objSet, hk, ih]

theorem objSet_self {k : String} {v : α} {l : List (String × α)}
    (h : objGet k l = some v) : objSet k v l = l := by
  induction l with
  | nil => simp [objGet] at h
  | cons p rest ih =>
      obtain ⟨k₀, v₀⟩ := p
      by_cases hk : k₀ = k
      · simp [objGet, hk] at h
        simp [objSet, hk, h]
      · simp [objGet, hk] at h
        simp [objSet, hk, ih h]

theorem objGet_append_self {k : String} {v : α} {l : List (String × α)}
    (h : objGet k l = none) : objGet k (l ++ [(k, v)]) = some v := by
  induction l with
  | nil => simp [objGet]
  | cons p rest ih =>
      obtain ⟨k₀, v₀⟩ := p
      by_cases hk : k₀ = k
      · simp [objGet, hk] at h
      · simp [objGet, hk] at h ⊢
        exact ih h

theorem objGet_append_ne {k k' : String} {v : α} {l : List (String × α)}
    (hne : k' ≠ k) : objGet k' (l ++ [(k, v)]) = objGet k' l := by
  induction l with
  | nil => simp [objGet, Ne.symm hne]
  | cons p rest ih =>
      obtain ⟨k₀, v₀⟩ := p
      by_cases hk : k₀ = k'
      · simp [objGet, hk]
      · simp [objGet, hk, ih]

theorem objSet_append_self {k : String} {v w : α} {l : List (String × α)}
    (h : objGet k l = none) : objSet k v (l ++ [(k, w)]) = l ++ [(k, v)] := by
  induction l with
  | nil => simp [objSet]
  | cons p rest ih =>
      obtain ⟨k₀, v₀⟩ := p
      by_cases hk : k₀ = k
      · simp [objGet, hk] at h
      · simp [objGet, hk] at h
        simp [objSet, hk, ih h]

theorem objDelete_append_self {k : String} {w : α} {l : List (String × α)}
    (h : objGet k l = none) : objDelete k (l ++ [(k, w)]) = l := by
  induction l with
  | nil => simp [objDelete]
  | cons p rest ih =>
      obtain ⟨k₀, v₀⟩ := p
      by_cases hk : k₀ = k
      · simp [objGet, hk] at h
      · simp [objGet, hk] at h
        simp [objDelete, hk, ih h]

theorem objGet_objDelete_self {k : String} {l : List (String × α)}
    (h : (l.map Prod.fst).Nodup) : objGet k (objDelete k l) = none := by
  induction l with
  | nil => simp [objDelete, objGet]
  | cons p rest ih =>
      obtain ⟨k₀, v₀⟩ := p
      simp only [List.map_cons, List.nodup_cons] at h
      by_cases hk : k₀ = k
      · rw [objDelete, if_pos hk]
        subst hk
        cases hrest : objGet k₀ rest with
        | none => rfl
        | some v =>
            exact absurd (List.mem_map_of_mem Prod.fst (objGet_mem hrest)) h.1
      · rw [objDelete, if_neg hk, objGet, if_neg hk]
        exact ih h.2

theorem objGet_objDelete_ne {k k' : String} {l : List (String × α)}
    (hne : k' ≠ k) : objGet k' (objDelete k l) = objGet k' l := by
  induction l with
  | nil => simp [objDelete]
  | cons p rest ih =>
      obtain ⟨k₀, v₀⟩ := p
      by_cases hk : k₀ = k
      · subst hk
        simp [objDelete, objGet, Ne.symm hne]
      · simp only [objDelete, if_neg hk, objGet]
        rw [ih]

theorem map_fst_objSet_of_mem {k : String} {v : α} {l : List (String × α)}
    (h : k ∈ l.map Prod.fst) :
    (objSet k v l).map Prod.fst = l.map Prod.fst := by
  induction l with
  | nil => simp at h
  | cons p rest ih =>
      obtain ⟨k₀, v₀⟩ := p
      by_cases hk : k₀ = k
      · simp [objSet, hk]
      · simp only [List.map_cons, List.mem_cons] at h
        rcases h with h | h
        · exact absurd h.symm hk
        · simp [objSet, hk, ih h]

theorem map_fst_objSet_of_not_mem {k : String} {v : α} {l : List (String × α)}
    (h : k ∉ l.map Prod.fst) :
    (objSet k v l).map Prod.fst = l.map Prod.fst ++ [k] := by
  induction l with
  | nil => simp [objSet]
  | cons p rest ih =>
      obtain ⟨k₀, v₀⟩ := p
      simp only [List.map_cons, List.mem_cons] at h
      push_neg at h
      simp [objSet, Ne.symm h.1, ih h.2]

theorem nodup_map_fst_objSet {k : String} {v : α} {l : List (String × α)}
    (h : (l.map Prod.fst).Nodup) :
    ((objSet k v l).map Prod.fst).Nodup := by
  by_cases hk : k ∈ l.map Prod.fst
  · rw [map_fst_objSet_of_mem hk]; exact h
  · rw [map_fst_objSet_of_not_mem hk]
    refine List.Nodup.append h (List.nodup_singleton k) ?_
    intro a ha hb
    rw [List.mem_singleton] at hb
    subst hb
    exact hk ha

/-! ## Lemmas about `removeFirstUser` -/

theorem removeFirstUser_of_not_mem {u : String} {l : List String}
    (h : u ∉ l) : removeFirstUser u l = l := by
  induction l with
  | nil => simp [removeFirstUser]
  | cons a as ih =>
      simp only [List.mem_cons] at h
      push_neg at h
      simp [removeFirstUser, Ne.symm h.1, ih h.2]

theorem removeFirstUser_append_self {u : String} {l : List String}
    (h : u ∉ l) : removeFirstUser u (l ++ [u]) = l := by
  induction l with
  | nil => simp [removeFirstUser]
  | cons a as ih =>
      simp only [List.mem_cons] at h
      push_neg at h
      simp [removeFirstUser, Ne.symm h.1, ih h.2]

theorem removeFirstUser_eq_nil {u : String} {l : List String}
    (h : removeFirstUser u l = []) : l = [] ∨ l = [u] := by
  cases l with
  | nil => exact Or.inl rfl
  | cons a as =>
      by_cases ha : a = u
      · simp [removeFirstUser, ha] at h
        subst ha; subst h
        exact Or.inr rfl
      · simp [removeFirstUser, ha] at h

theorem mem_removeFirstUser_of_nodup {u x : String} {l : List String}
    (h : l.Nodup) : x ∈ removeFirstUser u l ↔ x ∈ l ∧ x ≠ u := by
  induction l with
  | nil => simp [removeFirstUser]
  | cons a as ih =>
      simp only [List.nodup_cons] at h
      by_cases ha : a = u
      · subst ha
        simp only [removeFirstUser, if_pos rfl, List.mem_cons]
        constructor
        · intro hx
          exact ⟨Or.inr hx, fun hxa => h.1 (hxa ▸ hx)⟩
        · rintro ⟨hx | hx, hne⟩
          · exact absurd hx hne
          · exact hx
      · simp only [removeFirstUser, if_neg ha, List.mem_cons, ih h.2]
        constructor
        · rintro (rfl | ⟨hx, hne⟩)
          · exact ⟨Or.inl rfl, ha⟩
          · exact ⟨Or.inr hx, hne⟩
        · rintro ⟨rfl | hx, hne⟩
          · exact Or.inl rfl
          · exact Or.inr ⟨hx, hne⟩

/-! ## Invariants of reachable documents -/

/-- Every hangout response object has at most one entry per username. -/
def RespKeysOK (db : DB) : Prop :=
  ∀ g ∈ db.groups, ∀ h ∈ g.hangouts, (h.responses.map Prod.fst).Nodup

/-- Every stored group has a non-empty member list (a group is deleted as
soon as its last member leaves). -/
def MembersOK (db : DB) : Prop :=
  ∀ g ∈ db.groups, g.members ≠ []

theorem respKeysOK_step {db db' : DB} (hs : Step db db') (hdb : RespKeysOK db) :
    RespKeysOK db' := by
  cases hs with
  | login username freshId now db =>
      unfold loginUser
      split
      · exact hdb
      split
      · exact hdb
      · exact hdb
  | create name createdBy freshId freshCode now db =>
      unfold createGroup
      split
      · exact hdb
      split
      · exact hdb
      intro g hg h hh
      simp only [List.mem_append, List.mem_singleton] at hg
      rcases hg with hg | hg
      · exact hdb g hg h hh
      · subst hg; simp at hh
  | join code username db =>
      unfold joinGroup
      split
      · exact hdb
      split
      · exact hdb
      split
      next hfg => exact hdb
      next g hfg =>
        split
        · exact hdb
        dsimp only
        intro g' hg' h hh
        rcases mem_updateByKey hg' with hm | ⟨x, hx, rfl⟩
        · exact hdb g' hm h hh
        · exact hdb x (findByKey_mem hx).1 h hh
  | leave gid username db =>
      unfold leaveGroup
      split
      next hfg => exact hdb
      next g hfg =>
        dsimp only
        split
        · intro g' hg' h hh
          exact hdb g' (mem_removeByKey hg') h hh
        · intro g' hg' h hh
          rcases mem_updateByKey hg' with hm | ⟨x, hx, rfl⟩
          · exact hdb g' hm h hh
          · exact hdb x (findByKey_mem hx).1 h hh
  | propose gid title date time location description proposedBy freshId now db =>
      unfold proposeHangout
      split
      · exact hdb
      split
      next hfg => exact hdb
      next g hfg =>
        dsimp only
        intro g' hg' h hh
        rcases mem_updateByKey hg' with hm | ⟨x, hx, rfl⟩
        · exact hdb g' hm h hh
        · simp only [List.mem_append, List.mem_singleton] at hh
          rcases hh with hh | hh
          · exact hdb x (findByKey_mem hx).1 h hh
          · subst hh; simp
  | respond gid hid username response db =>
      unfold respondToHangout
      split
      · exact hdb
      split
      next hfg => exact hdb
      next g hfg =>
        split
        next hfh => exact hdb
        next h hfh =>
          dsimp only
          intro g' hg' h' hh'
          rcases mem_updateByKey hg' with hm | ⟨x, hx, rfl⟩
          · exact hdb g' hm h' hh'
          · rcases mem_updateByKey hh' with hm' | ⟨y, hy, rfl⟩
            · exact hdb x (findByKey_mem hx).1 h' hm'
            · exact nodup_map_fst_objSet
                (hdb g (findByKey_mem hfg).1 h (findByKey_mem hfh).1)
  | deleteHangout gid hid requester db =>
      unfold deleteHangoutApi
      split
      next hfg => exact hdb
      next g hfg =>
        split
        next hfh => exact hdb
        next h hfh =>
          dsimp only
          intro g' hg' h' hh'
          rcases mem_updateByKey hg' with hm | ⟨x, hx, rfl⟩
          · exact hdb g' hm h' hh'
          · exact hdb x (findByKey_mem hx).1 h' (mem_removeByKey hh')
  | send gid text sender freshId now db =>
      unfold sendMessage
      split
      · exact hdb
      split
      next hfg => exact hdb
      next g hfg =>
        dsimp only
        intro g' hg' h hh
        rcases mem_updateByKey hg' with hm | ⟨x, hx, rfl⟩
        · exact hdb g' hm h hh
        · exact hdb x (findByKey_mem hx).1 h hh
  | react gid mid username emoji db =>
      unfold reactToMessage
      split
      next hfg => exact hdb
      next g hfg =>
        split
        next hfm => exact hdb
        next m hfm =>
          dsimp only
          intro g' hg' h hh
          rcases mem_updateByKey hg' with hm | ⟨x, hx, rfl⟩
          · exact hdb g' hm h hh
          · exact hdb x (findByKey_mem hx).1 h hh

theorem membersOK_step {db db' : DB} (hs : Step db db') (hdb : MembersOK db) :
    MembersOK db' := by
  cases hs with
  | login username freshId now db =>
      unfold loginUser
      split
      · exact hdb
      split
      · exact hdb
      · exact hdb
  | create name createdBy freshId freshCode now db =>
      unfold createGroup
      split
      · exact hdb
      split
      · exact hdb
      intro g hg
      simp only [List.mem_append, List.mem_singleton] at hg
      rcases hg with hg | hg
      · exact hdb g hg
      · subst hg; simp
  | join code username db =>
      unfold joinGroup
      split
      · exact hdb
      split
      · exact hdb
      split
      next hfg => exact hdb
      next g hfg =>
        split
        · exact hdb
        dsimp only
        intro g' hg'
        rcases mem_updateByKey hg' with hm | ⟨x, hx, rfl⟩
        · exact hdb g' hm
        · simp
  | leave gid username db =>
      unfold leaveGroup
      split
      next hfg => exact hdb
      next g hfg =>
        dsimp only
        split
        next hlen =>
          intro g' hg'
          exact hdb g' (mem_removeByKey hg')
        next hlen =>
          intro g' hg'
          rcases mem_updateByKey hg' with hm | ⟨x, hx, rfl⟩
          · exact hdb g' hm
          · rw [hfg] at hx
            have hxg : g = x := Option.some.inj hx
            subst hxg
            intro hnil
            dsimp only at hnil
            exact hlen (by rw [hnil]; rfl)
  | propose gid title date time location description proposedBy freshId now db =>
      unfold proposeHangout
      split
      · exact hdb
      split
      next hfg => exact hdb
      next g hfg =>
        dsimp only
        intro g' hg'
        rcases mem_updateByKey hg' with hm | ⟨x, hx, rfl⟩
        · exact hdb g' hm
        · exact hdb x (findByKey_mem hx).1
  | respond gid hid username response db =>
      unfold respondToHangout
      split
      · exact hdb
      split
      next hfg => exact hdb
      next g hfg =>
        split
        next hfh => exact hdb
        next h hfh =>
          dsimp only
          intro g' hg'
          rcases mem_updateByKey hg' with hm | ⟨x, hx, rfl⟩
          · exact hdb g' hm
          · exact hdb x (findByKey_mem hx).1
  | deleteHangout gid hid requester db =>
      unfold deleteHangoutApi
      split
      next hfg => exact hdb
      next g hfg =>
        split
        next hfh => exact hdb
        next h hfh =>
          dsimp only
          intro g' hg'
          rcases mem_updateByKey hg' with hm | ⟨x, hx, rfl⟩
          · exact hdb g' hm
          · exact hdb x (findByKey_mem hx).1
  | send gid text sender freshId now db =>
      unfold sendMessage
      split
      · exact hdb
      split
      next hfg => exact hdb
      next g hfg =>
        dsimp only
        intro g' hg'
        rcases mem_updateByKey hg' with hm | ⟨x, hx, rfl⟩
        · exact hdb g' hm
        · exact hdb x (findByKey_mem hx).1
  | react gid mid username emoji db =>
      unfold reactToMessage
      split
      next hfg => exact hdb
      next g hfg =>
        split
        next hfm => exact hdb
        next m hfm =>
          dsimp only
          intro g' hg'
          rcases mem_updateByKey hg' with hm | ⟨x, hx, rfl⟩
          · exact hdb g' hm
          · exact hdb x (findByKey_mem hx).1

theorem respKeysOK_of_reachable {db : DB} (h : Reachable db) : RespKeysOK db := by
  induction h with
  | init => intro g hg; simp [DB.empty] at hg
  | step _ hs ih => exact respKeysOK_step hs ih

theorem membersOK_of_reachable {db : DB} (h : Reachable db) : MembersOK db := by
  induction h with
  | init => intro g hg; simp [DB.empty] at hg
  | step _ hs ih => exact membersOK_step hs ih

/-! ## Characterization of the reaction toggle -/

theorem reactToggle_of_none {e u : String} {l : List (String × List String)}
    (h : objGet e l = none) : reactToggle e u l = l ++ [(e, [u])] := by
  unfold reactToggle
  rw [h]
  simp only [Option.isNone_none, if_true, objGet_append_self h, Option.getD_some,
    List.not_mem_nil, if_false, List.nil_append]
  exact objSet_append_self h

theorem reactToggle_of_some_not_mem {e u : String} {l : List (String × List String)}
    {us : List String} (h : objGet e l = some us) (hu : u ∉ us) :
    reactToggle e u l = objSet e (us ++ [u]) l := by
  unfold reactToggle
  rw [h]
  simp only [Option.isNone_some, Bool.false_eq_true, if_false]
  rw [h]
  simp only [Option.getD_some]
  rw [if_neg hu]

theorem reactToggle_of_some_mem {e u : String} {l : List (String × List String)}
    {us : List String} (h : objGet e l = some us) (hu : u ∈ us) :
    reactToggle e u l
      = if (removeFirstUser u us).length = 0 then objDelete e l
        else objSet e (removeFirstUser u us) l := by
  unfold reactToggle
  rw [h]
  simp only [Option.isNone_some, Bool.false_eq_true, if_false]
  rw [h]
  simp only [Option.getD_some]
  rw [if_pos hu]

/-! ## Concrete documents used to exercise the theorems -/

/-- A hangout proposed by alice. -/
def exHangout : Hangout :=
  ⟨"h1", "Movie Night", "2026-03-15", "19:00", "cinema", "", "alice", "t1",
    [("alice", "going")]⟩

/-- A two-member group holding `exHangout`. -/
def exGroup : Group :=
  ⟨"g1", "Friday Gamers", "ABC-1234", ["alice", "bob"], "alice", "t0",
    [exHangout], []⟩

/-- A document holding just `exGroup`. -/
def exDB : DB := ⟨[], [exGroup]⟩

/-- A message carrying one reaction from users u and a. -/
def exMsg : Message := ⟨"m1", "hi", "alice", "t2", [("up", ["u", "a"])]⟩

/-- A group holding `exMsg`. -/
def exMsgGroup : Group :=
  ⟨"g2", "Chatters", "QQQ-1111", ["alice"], "alice", "t0", [], [exMsg]⟩

/-- A document holding just `exMsgGroup`. -/
def exMsgDB : DB := ⟨[], [exMsgGroup]⟩

/-- The reachable document obtained by creating one group as alice. -/
def exW : DB := (createGroup "Friday Gamers" "alice" "g1" "ABC-1234" "t0" DB.empty).2

/-- The single group stored in `exW`. -/
def exWG : Group :=
  ⟨"g1", "Friday Gamers", "ABC-1234", ["alice"], "alice", "t0", [], []⟩

/-- A reachable document where a hangout keeps the response of a member who
has left: create a group as alice, propose a hangout, let bob join and
respond going, then let bob leave again. -/
def exShrunk : DB :=
  (leaveGroup "g1" "bob"
    (respondToHangout "g1" "h1" "bob" "going"
      (joinGroup "ABC-1234" "bob"
        (proposeHangout "g1" "Movie Night" "2026-03-15" "19:00" "cinema" none
          "alice" "h1" "t1"
          (createGroup "Friday Gamers" "alice" "g1" "ABC-1234" "t0"
            DB.empty).2).2).2).2).2

theorem exW_reachable : Reachable exW :=
  Reachable.step Reachable.init
    (Step.create "Friday Gamers" "alice" "g1" "ABC-1234" "t0" DB.empty)

theorem exShrunk_reachable : Reachable exShrunk :=
  Reachable.step
    (Reachable.step
      (Reachable.step
        (Reachable.step
          (Reachable.step Reachable.init
            (Step.create "Friday Gamers" "alice" "g1" "ABC-1234" "t0" DB.empty))
          (Step.propose "g1" "Movie Night" "2026-03-15" "19:00" "cinema" none
            "alice" "h1" "t1" _))
        (Step.join "ABC-1234" "bob" _))
      (Step.respond "g1" "h1" "bob" "going" _))
    (Step.leave "g1" "bob" _)

/-! ## C1 — derived hangout status -/

/-- C1, counterexample: with 2 members and exactly one `going` response, the
`main.js` implementation of `getHangoutStatus` (the code the claim cites)
returns `confirmed`, not `pending`, because `1 ≥ Math.ceil(2 / 2)`. -/
theorem getHangoutStatusMain_half_cex :
    getHangoutStatusMain [("alice", "going")] 2 = .confirmed
    ∧ getHangoutStatusMain [("alice", "going")] 2 ≠ .pending := by
  constructor
  · rfl
  · decide

/-- C1, amended: the `firebase.js`/`part_003` variant of `getHangoutStatus`
implements the claimed strict-majority rule (`confirmed` exactly when twice
the going-count exceeds the member count, `cancelled` exactly when not
confirmed and twice the notGoing-count exceeds it, else `pending`), while
the `main.js` variant instead compares against `Math.ceil(memberCount/2)`,
i.e. is `confirmed` exactly when twice the going-count is at least the
member count — so with 2 members and exactly 1 `going` it is `confirmed`. -/
theorem getHangoutStatus_characterization
    (rs : List (String × String)) (m : Nat) :
    (getHangoutStatusFb rs m = .confirmed ↔
      2 * ((rs.map Prod.snd).filter (fun r => r = "going")).length > m)
    ∧ (getHangoutStatusFb rs m = .cancelled ↔
      (¬ 2 * ((rs.map Prod.snd).filter (fun r => r = "going")).length > m
        ∧ 2 * ((rs.map Prod.snd).filter (fun r => r = "notGoing")).length > m))
    ∧ (getHangoutStatusFb rs m = .pending ↔
      (¬ 2 * ((rs.map Prod.snd).filter (fun r => r = "going")).length > m
        ∧ ¬ 2 * ((rs.map Prod.snd).filter (fun r => r = "notGoing")).length > m))
    ∧ (getHangoutStatusMain rs m = .confirmed ↔
      2 * ((rs.map Prod.snd).filter (fun r => r = "going")).length ≥ m)
    ∧ (getHangoutStatusMain rs m = .cancelled ↔
      (¬ 2 * ((rs.map Prod.snd).filter (fun r => r = "going")).length ≥ m
        ∧ 2 * ((rs.map Prod.snd).filter (fun r => r = "notGoing")).length ≥ m))
    ∧ (getHangoutStatusMain rs m = .pending ↔
      (¬ 2 * ((rs.map Prod.snd).filter (fun r => r = "going")).length ≥ m
        ∧ ¬ 2 * ((rs.map Prod.snd).filter (fun r => r = "notGoing")).length ≥ m)) := by
  unfold getHangoutStatusFb getHangoutStatusMain
  dsimp only
  refine ⟨?_, ?_, ?_, ?_, ?_, ?_⟩ <;>
    split_ifs with h1 h2 <;> simp_all <;> omega

/-! ## C2 — who may delete a hangout -/

/-- C2, counterexample: the server `DELETE` route deletes the hangout and
reports success for requester bob even though bob is not the proposer, and
the persisted hangout list shrinks. -/
theorem deleteHangoutApi_nonproposer_cex :
    "bob" ≠ exHangout.proposedBy
    ∧ (deleteHangoutApi "g1" "h1" "bob" exDB).1 = .ok ()
    ∧ (deleteHangoutApi "g1" "h1" "bob" exDB).2.groups
        = [{ exGroup with hangouts := [] }] := by
  refine ⟨by decide, rfl, by decide⟩

/-- C2, amended: the proposer-only rule is enforced client side only.
The client `deleteHangout` of `main.js` refuses with the creator-only
error and leaves the group unchanged whenever the requester is not
`proposedBy`; the server route never reads the requester, so its result is
the same for every requester (it deletes any existing hangout). -/
theorem delete_guard_is_client_side_only
    (grp : Group) (hid requester : String) (h : Hangout)
    (hfind : findByKey Hangout.id hid grp.hangouts = some h)
    (hne : h.proposedBy ≠ requester) :
    clientDeleteHangout grp hid requester
      = (some "Only the creator can delete this hangout", grp)
    ∧ ∀ (gid r : String) (db : DB),
        deleteHangoutApi gid hid r db = deleteHangoutApi gid hid requester db := by
  constructor
  · unfold clientDeleteHangout
    rw [hfind]
    dsimp only
    rw [if_pos hne]
  · intro gid r db
    rfl

/-- C2, witness for `delete_guard_is_client_side_only` at bob deleting
alice's hangout. -/
theorem delete_guard_is_client_side_only_witness :
    findByKey Hangout.id "h1" exGroup.hangouts = some exHangout
    ∧ exHangout.proposedBy ≠ "bob"
    ∧ (clientDeleteHangout exGroup "h1" "bob"
        = (some "Only the creator can delete this hangout", exGroup)
      ∧ ∀ (gid r : String) (db : DB),
          deleteHangoutApi gid "h1" r db = deleteHangoutApi gid "h1" "bob" db) :=
  ⟨by decide, by decide,
    delete_guard_is_client_side_only exGroup "h1" "bob" exHangout
      (by decide) (by decide)⟩

/-! ## C3 — login idempotence -/

/-- C3, counterexample: logging in twice with `" alice "` (surrounding
whitespace) creates two distinct users, because the case-insensitive lookup
compares stored (trimmed) usernames with the untrimmed request string. -/
theorem loginUser_whitespace_cex :
    (loginUser " alice " "id1" "t1" DB.empty).1 = .ok ⟨"id1", "alice", "t1"⟩
    ∧ (loginUser " alice " "id2" "t2"
        (loginUser " alice " "id1" "t1" DB.empty).2).1 = .ok ⟨"id2", "alice", "t2"⟩
    ∧ (loginUser " alice " "id2" "t2"
        (loginUser " alice " "id1" "t1" DB.empty).2).2.users
        = [⟨"id1", "alice", "t1"⟩, ⟨"id2", "alice", "t2"⟩]
    ∧ ("id1" : String) ≠ "id2" := by
  refine ⟨rfl, rfl, by decide, by decide⟩

/-- C3, amended: for usernames that carry no surrounding whitespace (and are
non-empty), logging in twice in succession yields the same user both times
and the second login leaves the stored document unchanged. -/
theorem loginUser_idempotent (username id1 id2 t1 t2 : String) (db : DB)
    (htrim : jsTrim username = username) (hne : username ≠ "") :
    ∃ u : User,
      (loginUser username id1 t1 db).1 = .ok u
      ∧ loginUser username id2 t2 (loginUser username id1 t1 db).2
          = (.ok u, (loginUser username id1 t1 db).2) := by
  have htne : ¬ jsTrim username = "" := by rw [htrim]; exact hne
  cases hfind : findByKey (fun u => jsToLower u.username) (jsToLower username) db.users with
  | some u =>
      refine ⟨u, ?_, ?_⟩
      · simp [loginUser, htne, hfind]
      · simp [loginUser, htne, hfind]
  | none =>
      refine ⟨⟨id1, jsTrim username, t1⟩, ?_, ?_⟩
      · simp [loginUser, htne, hfind]
      · have happ : findByKey (fun u => jsToLower u.username) (jsToLower username)
            (db.users ++ [⟨id1, jsTrim username, t1⟩]) = some ⟨id1, jsTrim username, t1⟩ := by
          rw [findByKey_append, hfind]
          simp [findByKey, htrim]
        simp [loginUser, htne, hfind, happ]

/-- C3, witness for `loginUser_idempotent` at username alice on the empty
document. -/
theorem loginUser_idempotent_witness :
    jsTrim "alice" = "alice" ∧ ("alice" : String) ≠ ""
    ∧ ∃ u : User,
        (loginUser "alice" "id1" "t1" DB.empty).1 = .ok u
        ∧ loginUser "alice" "id2" "t2" (loginUser "alice" "id1" "t1" DB.empty).2
            = (.ok u, (loginUser "alice" "id1" "t1" DB.empty).2) :=
  ⟨by decide, by decide,
    loginUser_idempotent "alice" "id1" "id2" "t1" "t2" DB.empty
      (by decide) (by decide)⟩

/-! ## C4 — shape of the responses map -/

/-- The hangout stored in `exShrunk` (bob responded, then left). -/
def exShrunkH : Hangout :=
  ⟨"h1", "Movie Night", "2026-03-15", "19:00", "cinema", "", "alice", "t1",
    [("alice", "going"), ("bob", "going")]⟩

/-- The group stored in `exShrunk`: one member, two responses. -/
def exShrunkG : Group :=
  ⟨"g1", "Friday Gamers", "ABC-1234", ["alice"], "alice", "t0", [exShrunkH], []⟩

/-- C4, counterexample: in the reachable document `exShrunk` (alice creates
a group and proposes a hangout, bob joins, responds going and leaves) the
hangout keeps two responses while the group has one member, so the size of
the responses map exceeds the current member count. -/
theorem responses_exceed_member_count_cex :
    Reachable exShrunk
    ∧ (getGroup "g1" exShrunk).1 = .ok exShrunkG
    ∧ exShrunkH ∈ exShrunkG.hangouts
    ∧ exShrunkG.members.length < exShrunkH.responses.length :=
  ⟨exShrunk_reachable, rfl, by decide, by decide⟩

/-- C4, amended: in every reachable document every hangout response map has
at most one entry per username, and writing a response for a username that
already has an entry overwrites it, keeping the key list unchanged; but the
size of the map is not bounded by the current member count (responses
survive a member leaving, and responders are not checked for membership). -/
theorem responses_one_entry_per_user (db : DB) (hreach : Reachable db) :
    (∀ g ∈ db.groups, ∀ h ∈ g.hangouts, (h.responses.map Prod.fst).Nodup)
    ∧ (∀ (rs : List (String × String)) (u v : String),
        u ∈ rs.map Prod.fst →
        (objSet u v rs).map Prod.fst = rs.map Prod.fst) :=
  ⟨respKeysOK_of_reachable hreach, fun _ _ _ hu => map_fst_objSet_of_mem hu⟩

/-- C4, witness for `responses_one_entry_per_user` at the reachable
document `exShrunk` and at alice overwriting her response. -/
theorem responses_one_entry_per_user_witness :
    Reachable exShrunk
    ∧ (∀ g ∈ exShrunk.groups, ∀ h ∈ g.hangouts, (h.responses.map Prod.fst).Nodup)
    ∧ (objSet "alice" "maybe" [("alice", "going"), ("bob", "going")]).map Prod.fst
        = [("alice", "going"), ("bob", "going")].map Prod.fst :=
  ⟨exShrunk_reachable,
   (responses_one_entry_per_user exShrunk exShrunk_reachable).1,
   (responses_one_entry_per_user exShrunk exShrunk_reachable).2
     [("alice", "going"), ("bob", "going")] "alice" "maybe" (by decide)⟩

/-! ## C5 — double reaction toggle -/

/-- C5, counterexample: double-toggling user u on the reaction
`{"up": ["u", "a"]}` ends with `{"up": ["a", "u"]}` — the same set of
reacting users, but not the original reaction state (the order changed,
because removal takes u out of the middle and re-adding pushes it at the
end). -/
theorem reactToMessage_double_cex :
    (reactToMessage "g2" "m1" "u" "up"
        (reactToMessage "g2" "m1" "u" "up" exMsgDB).2).2
      = ⟨[], [{ exMsgGroup with
          messages := [{ exMsg with reactions := [("up", ["a", "u"])] }] }]⟩
    ∧ ([("up", ["a", "u"])] : List (String × List String)) ≠ exMsg.reactions :=
  ⟨by decide, by decide⟩

/-- C5, amended: applying the reaction toggle twice restores the reaction
state up to ordering — every emoji key is present afterwards exactly when
it was present before, and it maps to the same set of usernames; the state
is restored exactly whenever the toggling user had not already reacted with
that emoji.  (Hypotheses: JS objects hold each key once, and the code never
stores an empty or duplicated user array.) -/
theorem reactToggle_double_restores_up_to_order
    (r : List (String × List String)) (e u : String)
    (hkeys : (r.map Prod.fst).Nodup)
    (hvals : ∀ p ∈ r, p.2 ≠ [] ∧ p.2.Nodup) :
    (∀ e', (objGet e' (reactToggle e u (reactToggle e u r))).isSome
        = (objGet e' r).isSome)
    ∧ (∀ e' u', u' ∈ (objGet e' (reactToggle e u (reactToggle e u r))).getD []
        ↔ u' ∈ (objGet e' r).getD [])
    ∧ (u ∉ (objGet e r).getD [] → reactToggle e u (reactToggle e u r) = r) := by
  cases hget : objGet e r with
  | none =>
      have h1 : reactToggle e u r = r ++ [(e, [u])] := reactToggle_of_none hget
      have hg1 : objGet e (r ++ [(e, [u])]) = some [u] := objGet_append_self hget
      have hdouble : reactToggle e u (reactToggle e u r) = r := by
        rw [h1, reactToggle_of_some_mem hg1 (List.mem_singleton_self u)]
        simp only [removeFirstUser, if_pos rfl, List.length_nil, if_true]
        exact objDelete_append_self hget
      rw [hdouble]
      exact ⟨fun _ => rfl, fun _ _ => Iff.rfl, fun _ => rfl⟩
  | some us =>
      have hus := hvals (e, us) (objGet_mem hget)
      by_cases hu : u ∈ us
      · have h1 : reactToggle e u r
            = if (removeFirstUser u us).length = 0 then objDelete e r
              else objSet e (removeFirstUser u us) r :=
          reactToggle_of_some_mem hget hu
        by_cases hnil : removeFirstUser u us = []
        · have husu : us = [u] := by
            rcases removeFirstUser_eq_nil hnil with h' | h'
            · exact absurd h' hus.1
            · exact h'
          have hr1 : reactToggle e u r = objDelete e r := by
            rw [h1, if_pos (by rw [hnil]; rfl)]
          have hdel : objGet e (objDelete e r) = none := objGet_objDelete_self hkeys
          have hdouble : reactToggle e u (reactToggle e u r)
              = objDelete e r ++ [(e, [u])] := by
            rw [hr1, reactToggle_of_none hdel]
          refine ⟨?_, ?_, ?_⟩
          · intro e'
            by_cases he : e' = e
            · subst he
              rw [hdouble, hget, objGet_append_self hdel]
              rfl
            · rw [hdouble, objGet_append_ne he, objGet_objDelete_ne he]
          · intro e' u'
            by_cases he : e' = e
            · subst he
              rw [hdouble, hget, objGet_append_self hdel, husu]
            · rw [hdouble, objGet_append_ne he, objGet_objDelete_ne he]
          · intro habs
            exact absurd hu habs
        · have hr1 : reactToggle e u r = objSet e (removeFirstUser u us) r := by
            rw [h1, if_neg (fun hh => hnil (List.length_eq_zero.mp hh))]
          have hnotmem : u ∉ removeFirstUser u us := by
            rw [mem_removeFirstUser_of_nodup hus.2]
            rintro ⟨-, h'⟩
            exact h' rfl
          have hdouble : reactToggle e u (reactToggle e u r)
              = objSet e (removeFirstUser u us ++ [u]) r := by
            rw [hr1, reactToggle_of_some_not_mem objGet_objSet_self hnotmem,
              objSet_objSet]
          refine ⟨?_, ?_, ?_⟩
          · intro e'
            by_cases he : e' = e
            · subst he
              rw [hdouble, hget, objGet_objSet_self]
              rfl
            · rw [hdouble, objGet_objSet_ne he]
          · intro e' u'
            by_cases he : e' = e
            · subst he
              rw [hdouble, hget, objGet_objSet_self]
              simp only [Option.getD_some, List.mem_append, List.mem_singleton,
                mem_removeFirstUser_of_nodup hus.2]
              constructor
              · rintro (⟨h', -⟩ | rfl)
                · exact h'
                · exact hu
              · intro h'
                by_cases hx : u' = u
                · exact Or.inr hx
                · exact Or.inl ⟨h', hx⟩
            · rw [hdouble, objGet_objSet_ne he]
          · intro habs
            exact absurd hu habs
      · have hr1 : reactToggle e u r = objSet e (us ++ [u]) r :=
          reactToggle_of_some_not_mem hget hu
        have hmem : u ∈ us ++ [u] := by simp
        have hdouble : reactToggle e u (reactToggle e u r) = r := by
          rw [hr1, reactToggle_of_some_mem objGet_objSet_self hmem,
            removeFirstUser_append_self hu,
            if_neg (fun hh => hus.1 (List.length_eq_zero.mp hh)), objSet_objSet,
            objSet_self hget]
        rw [hdouble]
        exact ⟨fun _ => rfl, fun _ _ => Iff.rfl, fun _ => rfl⟩

/-- C5, witness for `reactToggle_double_restores_up_to_order` on the
reaction state `{"up": ["a"]}` toggled twice by user u. -/
theorem reactToggle_double_restores_up_to_order_witness :
    (([("up", ["a"])] : List (String × List String)).map Prod.fst).Nodup
    ∧ (∀ p ∈ ([("up", ["a"])] : List (String × List String)),
        p.2 ≠ [] ∧ p.2.Nodup)
    ∧ reactToggle "up" "u" (reactToggle "up" "u" [("up", ["a"])])
        = [("up", ["a"])] :=
  ⟨by decide, by decide,
   (reactToggle_double_restores_up_to_order [("up", ["a"])] "up" "u"
      (by decide) (by decide)).2.2 (by decide)⟩

/-! ## C6 — leaving as the last member -/

/-- C6, confirmed: when the addressed group's member list is exactly the
leaving username, the leave handler deletes the group (its hangouts and
messages with it), answers deleted = true, and the group id is afterwards
absent from `Get` (NotFound) and from list results; when other members
remain it answers deleted = false and persists only the reduced member
list. -/
theorem leaveGroup_last_member_deletes (db : DB) (gid u : String) (g : Group)
    (hfind : findByKey Group.id gid db.groups = some g)
    (hids : (db.groups.map Group.id).Nodup) :
    (g.members = [u] →
      leaveGroup gid u db
        = (.ok true, { db with groups := removeByKey Group.id gid db.groups })
      ∧ (getGroup gid (leaveGroup gid u db).2).1 = .error (404, "Group not found")
      ∧ ∀ g' ∈ listGroups "" (leaveGroup gid u db).2, g'.id ≠ gid)
    ∧ (g.members.filter (fun m => m ≠ u) ≠ [] →
      leaveGroup gid u db
        = (.ok false,
           { db with
             groups := updateByKey Group.id gid
                         (fun h => { h with
                                     members := h.members.filter (fun m => m ≠ u) })
                         db.groups })) := by
  constructor
  · intro hm
    have hfilter : g.members.filter (fun m => m ≠ u) = [] := by
      rw [hm]; simp
    have h1 : leaveGroup gid u db
        = (.ok true, { db with groups := removeByKey Group.id gid db.groups }) := by
      unfold leaveGroup
      rw [hfind]
      dsimp only
      rw [hfilter]
      rfl
    refine ⟨h1, ?_, ?_⟩
    · rw [h1]
      unfold getGroup
      dsimp only
      rw [findByKey_removeByKey_self hids]
    · intro g' hg'
      rw [h1] at hg'
      unfold listGroups at hg'
      rw [if_pos rfl] at hg'
      dsimp only at hg'
      exact findByKey_eq_none.mp (findByKey_removeByKey_self hids) g' hg'
  · intro hflt
    unfold leaveGroup
    rw [hfind]
    dsimp only
    rw [if_neg (fun hh => hflt (List.length_eq_zero.mp hh))]

/-- C6, witness for `leaveGroup_last_member_deletes`: alice, the only
member, leaves the group of `exW`. -/
theorem leaveGroup_last_member_deletes_witness :
    findByKey Group.id "g1" exW.groups = some exWG
    ∧ (exW.groups.map Group.id).Nodup
    ∧ exWG.members = ["alice"]
    ∧ (leaveGroup "g1" "alice" exW
        = (.ok true, { exW with groups := removeByKey Group.id "g1" exW.groups })
      ∧ (getGroup "g1" (leaveGroup "g1" "alice" exW).2).1
          = .error (404, "Group not found")
      ∧ ∀ g' ∈ listGroups "" (leaveGroup "g1" "alice" exW).2, g'.id ≠ "g1") :=
  ⟨by decide, by decide, by decide,
   (leaveGroup_last_member_deletes exW "g1" "alice" exWG (by decide) (by decide)).1
     (by decide)⟩

/-! ## C7 — joining by code -/

/-- C7, confirmed: for non-empty code and username, joining with a code
that matches no group (case-insensitively) fails with 404 NotFound and
leaves the document unchanged; joining a group that already lists the
username fails with the already-in-this-group conflict error and leaves the
document unchanged; otherwise the username is appended to the matched
group's member list. -/
theorem joinGroup_trichotomy (db : DB) (code u : String)
    (hcode : code ≠ "") (hu : u ≠ "") :
    ((∀ g ∈ db.groups, jsToUpper g.code ≠ jsToUpper code) →
      joinGroup code u db = (.error (404, "No group found with that code"), db))
    ∧ (∀ g, findByKey (fun g => jsToUpper g.code) (jsToUpper code) db.groups = some g →
        (u ∈ g.members →
          joinGroup code u db = (.error (400, "You are already in this group"), db))
        ∧ (u ∉ g.members →
          (joinGroup code u db).1 = .ok { g with members := g.members ++ [u] }
          ∧ { g with members := g.members ++ [u] } ∈ (joinGroup code u db).2.groups)) := by
  constructor
  · intro hnone
    unfold joinGroup
    rw [if_neg hcode, if_neg hu, findByKey_eq_none.mpr hnone]
  · intro g hfind
    constructor
    · intro hmem
      unfold joinGroup
      rw [if_neg hcode, if_neg hu, hfind]
      dsimp only
      rw [if_pos hmem]
    · intro hmem
      constructor
      · unfold joinGroup
        rw [if_neg hcode, if_neg hu, hfind]
        dsimp only
        rw [if_neg hmem]
      · unfold joinGroup
        rw [if_neg hcode, if_neg hu, hfind]
        dsimp only
        rw [if_neg hmem]
        dsimp only
        exact updateByKey_mem_of_findByKey hfind

/-- C7, witness for `joinGroup_trichotomy`: an unknown code fails with
NotFound, alice joining her own group again conflicts, and carol joining
appends to the member list. -/
theorem joinGroup_trichotomy_witness :
    joinGroup "ZZZ-9999" "alice" exDB
      = (.error (404, "No group found with that code"), exDB)
    ∧ joinGroup "abc-1234" "alice" exDB
      = (.error (400, "You are already in this group"), exDB)
    ∧ ((joinGroup "abc-1234" "carol" exDB).1
        = .ok { exGroup with members := exGroup.members ++ ["carol"] }
      ∧ { exGroup with members := exGroup.members ++ ["carol"] }
          ∈ (joinGroup "abc-1234" "carol" exDB).2.groups) :=
  ⟨(joinGroup_trichotomy exDB "ZZZ-9999" "alice" (by decide) (by decide)).1
     (by decide),
   ((joinGroup_trichotomy exDB "abc-1234" "alice" (by decide) (by decide)).2
     exGroup (by decide)).1 (by decide),
   ((joinGroup_trichotomy exDB "abc-1234" "carol" (by decide) (by decide)).2
     exGroup (by decide)).2 (by decide)⟩

/-! ## C8 — proposing a hangout -/

/-- C8, confirmed: proposing fails with the 400 ValidationError whenever
title, date, time or location is the empty string (leaving the document
unchanged), and every successfully created hangout has its responses map
equal to exactly the proposer mapped to going (so the proposer is recorded
going immediately) and its description defaulted to the empty string when
the field is absent or empty. -/
theorem proposeHangout_validation_and_init
    (gid title date time location : String) (description : Option String)
    (proposedBy freshId now : String) (db : DB) :
    ((title = "" ∨ date = "" ∨ time = "" ∨ location = "") →
      proposeHangout gid title date time location description proposedBy freshId now db
        = (.error (400, "Title, date, time, and location are required"), db))
    ∧ (∀ h, (proposeHangout gid title date time location description proposedBy
          freshId now db).1 = .ok h →
        h.responses = [(proposedBy, "going")]
        ∧ objGet proposedBy h.responses = some "going"
        ∧ ((description = none ∨ description = some "") → h.description = "")) := by
  constructor
  · intro hempty
    unfold proposeHangout
    rw [if_pos hempty]
  · intro h hok
    unfold proposeHangout at hok
    by_cases hempty : title = "" ∨ date = "" ∨ time = "" ∨ location = ""
    · rw [if_pos hempty] at hok
      cases hok
    · rw [if_neg hempty] at hok
      cases hfg : findByKey Group.id gid db.groups with
      | none =>
          rw [hfg] at hok
          cases hok
      | some g =>
          rw [hfg] at hok
          dsimp only at hok
          injection hok with hok
          subst hok
          refine ⟨rfl, by simp [objGet], ?_⟩
          rintro (rfl | rfl)
          · rfl
          · rfl

/-- The hangout created in the C8 witness. -/
def exNewHangout : Hangout :=
  ⟨"h2", "Game Night", "2026-04-01", "20:00", "den", "", "bob", "t3",
    [("bob", "going")]⟩

/-- C8, witness for `proposeHangout_validation_and_init`: an empty title is
rejected, and bob's successful proposal starts with exactly
`{bob: "going"}` and an empty description. -/
theorem proposeHangout_validation_and_init_witness :
    proposeHangout "g1" "" "2026-04-01" "20:00" "den" none "bob" "h2" "t3" exDB
      = (.error (400, "Title, date, time, and location are required"), exDB)
    ∧ exNewHangout.responses = [("bob", "going")]
    ∧ objGet "bob" exNewHangout.responses = some "going"
    ∧ exNewHangout.description = "" :=
  ⟨(proposeHangout_validation_and_init "g1" "" "2026-04-01" "20:00" "den" none
      "bob" "h2" "t3" exDB).1 (Or.inl rfl),
   ((proposeHangout_validation_and_init "g1" "Game Night" "2026-04-01" "20:00"
      "den" none "bob" "h2" "t3" exDB).2 exNewHangout rfl).1,
   ((proposeHangout_validation_and_init "g1" "Game Night" "2026-04-01" "20:00"
      "den" none "bob" "h2" "t3" exDB).2 exNewHangout rfl).2.1,
   ((proposeHangout_validation_and_init "g1" "Game Night" "2026-04-01" "20:00"
      "den" none "bob" "h2" "t3" exDB).2 exNewHangout rfl).2.2 (Or.inl rfl)⟩

/-! ## C9 — NotFound on missing entities, no partial mutation -/

/-- C9, confirmed: every operation addressed to a group id absent from the
document fails with 404 Group-not-found and persists the document
unchanged; with the group present, responding to or deleting a missing
hangout id fails with 404 Hangout-not-found, and reacting to a missing
message id fails with 404 Message-not-found, again leaving the document
unchanged — no error path applies a partial mutation. -/
theorem missing_entities_not_found (db : DB)
    (gid hid mid u resp title date time location text sender emoji fid now : String)
    (description : Option String) :
    (findByKey Group.id gid db.groups = none →
      (resp = "going" ∨ resp = "maybe" ∨ resp = "notGoing") →
      ¬ (title = "" ∨ date = "" ∨ time = "" ∨ location = "") →
      ¬ jsTrim text = "" →
      getGroup gid db = (.error (404, "Group not found"), db)
      ∧ leaveGroup gid u db = (.error (404, "Group not found"), db)
      ∧ proposeHangout gid title date time location description u fid now db
          = (.error (404, "Group not found"), db)
      ∧ respondToHangout gid hid u resp db = (.error (404, "Group not found"), db)
      ∧ deleteHangoutApi gid hid u db = (.error (404, "Group not found"), db)
      ∧ getMessages gid db = (.error (404, "Group not found"), db)
      ∧ sendMessage gid text sender fid now db = (.error (404, "Group not found"), db)
      ∧ reactToMessage gid mid u emoji db = (.error (404, "Group not found"), db))
    ∧ (∀ g, findByKey Group.id gid db.groups = some g →
        (findByKey Hangout.id hid g.hangouts = none →
          ((resp = "going" ∨ resp = "maybe" ∨ resp = "notGoing") →
            respondToHangout gid hid u resp db
              = (.error (404, "Hangout not found"), db))
          ∧ deleteHangoutApi gid hid u db
              = (.error (404, "Hangout not found"), db))
        ∧ (findByKey Message.id mid g.messages = none →
          reactToMessage gid mid u emoji db
            = (.error (404, "Message not found"), db))) := by
  constructor
  · intro hg hresp htdl htext
    refine ⟨?_, ?_, ?_, ?_, ?_, ?_, ?_, ?_⟩
    · unfold getGroup
      rw [hg]
    · unfold leaveGroup
      rw [hg]
    · unfold proposeHangout
      rw [if_neg htdl, hg]
    · unfold respondToHangout
      rw [if_neg (not_not_intro hresp), hg]
    · unfold deleteHangoutApi
      rw [hg]
    · unfold getMessages
      rw [hg]
    · unfold sendMessage
      rw [if_neg htext, hg]
    · unfold reactToMessage
      rw [hg]
  · intro g hg
    refine ⟨fun hh => ⟨fun hresp => ?_, ?_⟩, fun hm => ?_⟩
    · unfold respondToHangout
      rw [if_neg (not_not_intro hresp), hg]
      dsimp only
      rw [hh]
    · unfold deleteHangoutApi
      rw [hg]
      dsimp only
      rw [hh]
    · unfold reactToMessage
      rw [hg]
      dsimp only
      rw [hm]

/-- C9, witness for `missing_entities_not_found`: an unknown group id, and
unknown hangout/message ids inside the known group of `exDB`. -/
theorem missing_entities_not_found_witness :
    (getGroup "nope" exDB = (.error (404, "Group not found"), exDB)
      ∧ leaveGroup "nope" "alice" exDB = (.error (404, "Group not found"), exDB)
      ∧ proposeHangout "nope" "T" "d" "tm" "loc" none "alice" "f" "t" exDB
          = (.error (404, "Group not found"), exDB)
      ∧ respondToHangout "nope" "h1" "alice" "going" exDB
          = (.error (404, "Group not found"), exDB)
      ∧ deleteHangoutApi "nope" "h1" "alice" exDB
          = (.error (404, "Group not found"), exDB)
      ∧ getMessages "nope" exDB = (.error (404, "Group not found"), exDB)
      ∧ sendMessage "nope" "hi" "alice" "f" "t" exDB
          = (.error (404, "Group not found"), exDB)
      ∧ reactToMessage "nope" "m1" "alice" "up" exDB
          = (.error (404, "Group not found"), exDB))
    ∧ (respondToHangout "g1" "nope2" "alice" "going" exDB
        = (.error (404, "Hangout not found"), exDB)
      ∧ deleteHangoutApi "g1" "nope2" "alice" exDB
        = (.error (404, "Hangout not found"), exDB))
    ∧ reactToMessage "g1" "nope3" "alice" "up" exDB
        = (.error (404, "Message not found"), exDB) :=
  ⟨(missing_entities_not_found exDB "nope" "h1" "m1" "alice" "going" "T" "d"
      "tm" "loc" "hi" "alice" "up" "f" "t" none).1 (by decide) (by decide)
      (by decide) (by decide),
   ⟨((missing_entities_not_found exDB "g1" "nope2" "nope3" "alice" "going" "T"
      "d" "tm" "loc" "hi" "alice" "up" "f" "t" none).2 exGroup (by decide)).1
      (by decide) |>.1 (by decide),
    ((missing_entities_not_found exDB "g1" "nope2" "nope3" "alice" "going" "T"
      "d" "tm" "loc" "hi" "alice" "up" "f" "t" none).2 exGroup (by decide)).1
      (by decide) |>.2⟩,
   ((missing_entities_not_found exDB "g1" "nope2" "nope3" "alice" "going" "T"
      "d" "tm" "loc" "hi" "alice" "up" "f" "t" none).2 exGroup (by decide)).2
      (by decide)⟩

/-! ## C10 — leaving a group one is not a member of -/

/-- C10, confirmed: for every reachable document, leaving an existing group
as a username that is not in its member list succeeds, reports
deleted = false, and persists the document completely unchanged (member
list, hangouts and messages included) — a silent no-op, not a failure. -/
theorem leaveGroup_nonmember_noop (db : DB) (gid u : String) (g : Group)
    (hreach : Reachable db)
    (hfind : findByKey Group.id gid db.groups = some g)
    (hmem : u ∉ g.members) :
    leaveGroup gid u db = (.ok false, db) := by
  have hne : g.members ≠ [] :=
    membersOK_of_reachable hreach g (findByKey_mem hfind).1
  have hfilter : g.members.filter (fun m => m ≠ u) = g.members := by
    apply List.filter_eq_self.mpr
    intro a ha
    have hau : a ≠ u := fun h' => hmem (h' ▸ ha)
    simp [hau]
  have hfg : ({ g with members := g.members.filter (fun m => m ≠ u) } : Group) = g := by
    rw [hfilter]
  unfold leaveGroup
  rw [hfind]
  dsimp only
  rw [hfilter, if_neg (fun hh => hne (List.length_eq_zero.mp hh)),
    updateByKey_eq_self hfind hfg]

/-- C10, witness for `leaveGroup_nonmember_noop`: bob, not a member, leaves
the reachable one-group document `exW`. -/
theorem leaveGroup_nonmember_noop_witness :
    Reachable exW
    ∧ findByKey Group.id "g1" exW.groups = some exWG
    ∧ "bob" ∉ exWG.members
    ∧ leaveGroup "g1" "bob" exW = (.ok false, exW) :=
  ⟨exW_reachable, by decide, by decide,
   leaveGroup_nonmember_noop exW "g1" "bob" exWG exW_reachable
     (by decide) (by decide)⟩

end HangHive
